import Mathlib

/-!
Verification of the defmt host pipeline and firmware buffer logger.

The development shallowly embeds three source files:
  * `firmware/defmt-buffer/src/lib.rs` — the on-device writer over a
    fixed-capacity bbqueue grant (`Writer::write`, `Logger::release`);
  * `elf2table/src/lib.rs` — `parse` (symbol-table extraction) and
    `get_locations` (DWARF walk producing the address → Location map);
  * `print/src/main.rs` — the stream reassembly / frame decoding loop.

Machine integers are modelled as `Nat` (no arithmetic in the embedded code
overflows: lengths and addresses only), byte buffers as `List Nat`, and the
external decode primitives (rzCOBS frame decoding, `defmt_decoder`'s table
decoding, gimli's attribute extraction) as opaque parameters or as
pre-extracted structured inputs, exactly at the boundary where the source
consumes them.
-/

namespace DefmtBuffer

/-- State of an acquired write region: the grant's byte contents (fixed
length, 1024 in `Logger::acquire`) and the number of bytes written so far.
Mirrors `struct Writer { written: usize, grant: FrameGrantW<..> }`. -/
structure Writer where
  written : Nat
  grant : List Nat
deriving DecidableEq, Repr

/-- `buf[start..start+bytes.len()].copy_from_slice(bytes)`: overwrite the
slice of `buf` beginning at `start` with `bytes` (callers guarantee the
range is in bounds). -/
def copyFromSlice (buf : List Nat) (start : Nat) (bytes : List Nat) : List Nat :=
  buf.take start ++ bytes ++ buf.drop (start + bytes.length)

/-- `impl defmt::Write for Writer { fn write(&mut self, bytes: &[u8]) }`:
if the bytes fit in the remaining capacity they are copied and `written`
advances; otherwise nothing is copied and `written` is set to the full
grant length so no further data can be written. -/
def Writer.write (w : Writer) (bytes : List Nat) : Writer :=
  let available := w.grant.length - w.written
  if bytes.length ≤ available then
    { written := w.written + bytes.length
      grant := copyFromSlice w.grant w.written bytes }
  else
    { w with written := w.grant.length }

/-- Fold a sequence of `write` calls over a writer. -/
def Writer.writeAll (w : Writer) (calls : List (List Nat)) : Writer :=
  calls.foldl Writer.write w

/-- The number of bytes `Logger::release` commits for a writer taken out of
`WRITERS`: `if writer.written < writer.grant.len() { commit(written) } else
{ commit(0) }`. -/
def releaseCommit (w : Writer) : Nat :=
  if w.written < w.grant.length then w.written else 0

/-- Total length of a sequence of write calls. -/
def sumLens (calls : List (List Nat)) : Nat :=
  (calls.map List.length).sum

theorem sumLens_cons (b : List Nat) (bs : List (List Nat)) :
    sumLens (b :: bs) = b.length + sumLens bs := by
  simp [sumLens]

/-- `write` never changes the grant's length. -/
theorem write_grant_length (w : Writer) (bytes : List Nat) :
    (w.write bytes).grant.length = w.grant.length := by
  unfold Writer.write
  by_cases h : bytes.length ≤ w.grant.length - w.written
  · simp only [h, if_pos, copyFromSlice]
    simp only [List.length_append, List.length_take, List.length_drop]
    omega
  · simp [h]

/-- As long as the cumulative length of the calls fits in the remaining
capacity, every call takes the copying branch and `written` advances by
exactly the bytes supplied. -/
theorem writeAll_written_of_fits (calls : List (List Nat)) :
    ∀ w : Writer, w.written + sumLens calls ≤ w.grant.length →
      (w.writeAll calls).written = w.written + sumLens calls ∧
      (w.writeAll calls).grant.length = w.grant.length := by
  induction calls with
  | nil => intro w _; simp [Writer.writeAll, sumLens]
  | cons b bs ih =>
    intro w hfit
    rw [sumLens_cons] at hfit
    have hb : b.length ≤ w.grant.length - w.written := by omega
    have hw : (w.write b).written = w.written + b.length ∧
        (w.write b).grant.length = w.grant.length := by
      constructor
      · unfold Writer.write; simp [hb]
      · exact write_grant_length w b
    have hfit' : (w.write b).written + sumLens bs ≤ (w.write b).grant.length := by
      rw [hw.1, hw.2]; omega
    have := ih (w.write b) hfit'
    refine ⟨?_, ?_⟩
    · show (Writer.writeAll (w.write b) bs).written = _
      rw [this.1, hw.1, sumLens_cons]; omega
    · show (Writer.writeAll (w.write b) bs).grant.length = _
      rw [this.2, hw.2]

/-- On overflow (`bytes.len() > available`) the write copies nothing and
saturates `written` at the grant length. -/
theorem Writer.write_overflow (w : Writer) (bytes : List Nat)
    (h : w.grant.length - w.written < bytes.length) :
    w.write bytes = { w with written := w.grant.length } := by
  unfold Writer.write
  rw [if_neg (by omega)]

/-- `release` commits zero bytes whenever `written` has reached the grant
length. -/
theorem releaseCommit_of_full (w : Writer) (h : w.written = w.grant.length) :
    releaseCommit w = 0 := by
  unfold releaseCommit
  rw [if_neg (by omega)]

end DefmtBuffer

/-- C2 counterexample: a writer over the 1024-byte grant of
`Logger::acquire` receiving a 1025-byte write is committed as **zero**
bytes on release, not as the full region length 1024 that the claim
asserts. -/
theorem c2_overflow_counterexample :
    DefmtBuffer.releaseCommit
      ((DefmtBuffer.Writer.mk 0 (List.replicate 1024 0)).write (List.replicate 1025 1)) = 0 ∧
    (0 : Nat) ≠ 1024 := by
  constructor
  · rw [DefmtBuffer.Writer.write_overflow _ _
      (by simp only [List.length_replicate]; omega)]
    exact DefmtBuffer.releaseCommit_of_full _ rfl
  · decide

/-- C2 (amended): when a write attempts more bytes than the region's
remaining capacity, the entire overflowing write is dropped silently (the
grant's contents are untouched), the written count is set to the full
grant length, and on release the region is committed as **zero** bytes —
the message is discarded — with no signal to the host core (the commit
count is the only observable). -/
theorem c2_overflow_discards_message (w : DefmtBuffer.Writer) (bytes : List Nat)
    (h : w.grant.length - w.written < bytes.length) :
    (w.write bytes).written = w.grant.length ∧
    (w.write bytes).grant = w.grant ∧
    DefmtBuffer.releaseCommit (w.write bytes) = 0 := by
  rw [DefmtBuffer.Writer.write_overflow w bytes h]
  exact ⟨rfl, rfl, DefmtBuffer.releaseCommit_of_full _ rfl⟩

/-- Witness for the amended C2 at a concrete overflowing write. -/
theorem c2_overflow_discards_message_witness :
    ((DefmtBuffer.Writer.mk 0 [0, 0]).write [1, 2, 3]).written = 2 ∧
    ((DefmtBuffer.Writer.mk 0 [0, 0]).write [1, 2, 3]).grant = [0, 0] ∧
    DefmtBuffer.releaseCommit ((DefmtBuffer.Writer.mk 0 [0, 0]).write [1, 2, 3]) = 0 :=
  c2_overflow_discards_message (DefmtBuffer.Writer.mk 0 [0, 0]) [1, 2, 3] (by decide)

/-- C9: a write sequence that exactly fills the acquired 1024-byte region's
capacity ends with `written = grant.len()`, so `release` commits zero
bytes: an exact-fit message is discarded (the literal current behavior of
`Logger::release`). -/
theorem c9_exact_fit_discarded (calls : List (List Nat))
    (h : DefmtBuffer.sumLens calls = 1024) :
    DefmtBuffer.releaseCommit
      ((DefmtBuffer.Writer.mk 0 (List.replicate (1024 : Nat) 0)).writeAll calls) = 0 := by
  have hfit : (DefmtBuffer.Writer.mk 0 (List.replicate (1024 : Nat) 0)).written +
      DefmtBuffer.sumLens calls ≤
      (DefmtBuffer.Writer.mk 0 (List.replicate (1024 : Nat) 0)).grant.length := by
    simp only [List.length_replicate, h]; omega
  have hres := DefmtBuffer.writeAll_written_of_fits calls _ hfit
  refine DefmtBuffer.releaseCommit_of_full _ ?_
  rw [hres.1, hres.2]
  simp only [List.length_replicate, h]

/-- Witness for C9: a single 1024-byte write exactly filling the region is
committed as zero bytes. -/
theorem c9_exact_fit_discarded_witness :
    DefmtBuffer.releaseCommit
      ((DefmtBuffer.Writer.mk 0 (List.replicate (1024 : Nat) 0)).writeAll
        [List.replicate 1024 7]) = 0 :=
  c9_exact_fit_discarded [List.replicate 1024 7]
    (by simp only [DefmtBuffer.sumLens, List.map_cons, List.map_nil,
          List.length_replicate, List.sum_cons, List.sum_nil, Nat.add_zero])

namespace Elf2Table

/-- Rust `linkage_name.splitn(2, '@')` as a list of pieces: at most two
pieces, split at the first `'@'`; a string without `'@'` yields itself as
the single piece. -/
def splitn2 (s : List Char) : List (List Char) :=
  if '@' ∈ s then
    [s.takeWhile (fun c => c ≠ '@'), (s.dropWhile (fun c => c ≠ '@')).drop 1]
  else [s]

/-- `linkage_name.splitn(2, '@').next()` — the identifying name before the
`@` disambiguation suffix, `none` when the iterator is empty (the source's
`ok_or_else` error branch). -/
def stripAtSuffix (s : List Char) : Option (List Char) :=
  (splitn2 s).head?

/-- A symbol-table entry as `parse` consumes it: `entry.name()` (which may
be absent), `entry.section_index()`, and `entry.address()`. -/
structure ElfSymbol where
  name : Option (List Char)
  shndx : Option Nat
  address : Nat
deriving DecidableEq, Repr

/-- The part of a well-formed object file that `parse` reads: the index of
the `.defmt` section when present (`section_by_name(".defmt")`), and the
symbol table. -/
structure ElfImage where
  defmtShndx : Option Nat
  symbols : List ElfSymbol
deriving DecidableEq, Repr

/-- The quoted version-marker pattern (LLD keeps linker-script quotes). -/
def qpat : List Char := "\"_defmt_version_ = ".data

/-- The unquoted version-marker pattern. -/
def upat : List Char := "_defmt_version_ = ".data

/-- Fuel-indexed `str::trim_start_matches`: repeatedly remove a leading
occurrence of `pat`. Every removal of a nonempty `pat` strips at least one
character, so fuel `s.length` (as used by `stripAll`) never runs out. -/
def stripAllAux : Nat → List Char → List Char → List Char
  | 0, _, s => s
  | fuel + 1, pat, s =>
    if pat ≠ [] ∧ pat.isPrefixOf s then stripAllAux fuel pat (s.drop pat.length)
    else s

/-- `s.trim_start_matches(pat)`. -/
def stripAll (pat s : List Char) : List Char := stripAllAux s.length pat s

/-- `s.trim_end_matches('"')`: drop every trailing quote character. -/
def trimEndQuotes (s : List Char) : List Char :=
  (s.reverse.dropWhile (fun c => c = '"')).reverse

/-- Whether a symbol name carries the version marker:
`name.starts_with("\"_defmt_version_ = ") || name.starts_with("_defmt_version_ = ")`. -/
def isVersionName (name : List Char) : Bool :=
  qpat.isPrefixOf name || upat.isPrefixOf name

/-- The version string recovered from a version-marker symbol name:
both prefixes trimmed from the start and quotes trimmed from the end. -/
def versionValue (name : List Char) : List Char :=
  trimEndQuotes (stripAll upat (stripAll qpat name))

/-- Whether an `ElfSymbol` is a version-marker symbol (has a name and the
name carries the marker). -/
def symIsVersion (s : ElfSymbol) : Bool :=
  match s.name with
  | none => false
  | some n => isVersionName n

/-- Errors `parse` can raise inside its symbol loop and its final check. -/
inductive ParseError where
  | versionConflict (old new : List Char)
  | missingSymbol
deriving DecidableEq, Repr

/-- Mutable state of `parse`'s symbol loop: the address → string map, the
recorded version, and the ten severity boundary markers. -/
structure ParseState where
  map : List (Nat × List Char)
  version : Option (List Char)
  trace_start : Option Nat
  trace_end : Option Nat
  debug_start : Option Nat
  debug_end : Option Nat
  info_start : Option Nat
  info_end : Option Nat
  warn_start : Option Nat
  warn_end : Option Nat
  error_start : Option Nat
  error_end : Option Nat
deriving DecidableEq, Repr

/-- The loop's initial state: empty map, everything unrecorded. -/
def initState : ParseState :=
  { map := [], version := none,
    trace_start := none, trace_end := none, debug_start := none,
    debug_end := none, info_start := none, info_end := none,
    warn_start := none, warn_end := none, error_start := none,
    error_end := none }

/-- `BTreeMap::insert`: replace the value at an existing key, otherwise add
the binding. -/
def mapInsert (m : List (Nat × List Char)) (k : Nat) (v : List Char) :
    List (Nat × List Char) :=
  match m with
  | [] => [(k, v)]
  | (k', v') :: rest =>
    if k' = k then (k, v) :: rest else (k', v') :: mapInsert rest k v

/-- The `match name { ... }` over symbols whose section index equals the
`.defmt` section's: the ten reserved names record range boundaries, every
other name is inserted into the map at the symbol's address. -/
def applySection (st : ParseState) (name : List Char) (addr : Nat) : ParseState :=
  if name = ("_defmt_trace_start").data then { st with trace_start := some addr }
  else if name = ("_defmt_trace_end").data then { st with trace_end := some addr }
  else if name = ("_defmt_debug_start").data then { st with debug_start := some addr }
  else if name = ("_defmt_debug_end").data then { st with debug_end := some addr }
  else if name = ("_defmt_info_start").data then { st with info_start := some addr }
  else if name = ("_defmt_info_end").data then { st with info_end := some addr }
  else if name = ("_defmt_warn_start").data then { st with warn_start := some addr }
  else if name = ("_defmt_warn_end").data then { st with warn_end := some addr }
  else if name = ("_defmt_error_start").data then { st with error_start := some addr }
  else if name = ("_defmt_error_end").data then { st with error_end := some addr }
  else { st with map := mapInsert st.map addr name }

/-- `if entry.section_index() == Some(defmt_shndx) { ... }`. -/
def applyShndx (shndx : Nat) (st : ParseState) (name : List Char)
    (sym : ElfSymbol) : ParseState :=
  if sym.shndx = some shndx then applySection st name sym.address else st

/-- One iteration of `parse`'s `for (_, entry) in elf.symbols()` loop:
skip unnamed entries, check the version marker (any second version symbol
returns the conflict error immediately), then handle `.defmt`-section
symbols. -/
def symStep (shndx : Nat) (st : ParseState) (sym : ElfSymbol) :
    Except ParseError ParseState :=
  match sym.name with
  | none => .ok st
  | some name =>
    if isVersionName name then
      match st.version with
      | some v => .error (.versionConflict v (versionValue name))
      | none =>
        .ok (applyShndx shndx { st with version := some (versionValue name) } name sym)
    else .ok (applyShndx shndx st name sym)

/-- The whole symbol loop, with the Rust `return Err(...)` early exit. -/
def foldSyms (shndx : Nat) : ParseState → List ElfSymbol → Except ParseError ParseState
  | st, [] => .ok st
  | st, sym :: rest =>
    match symStep shndx st sym with
    | .error e => .error e
    | .ok st' => foldSyms shndx st' rest

/-- The arguments `parse` hands to the external `defmt_decoder::Table::new`
on success: the map, the five `[start, end)` ranges, and the version. -/
structure TableInput where
  map : List (Nat × List Char)
  debugR : Nat × Nat
  errorR : Nat × Nat
  infoR : Nat × Nat
  traceR : Nat × Nat
  warnR : Nat × Nat
  version : List Char
deriving DecidableEq, Repr

/-- The "unify errors" tail of `parse`: fail unless all ten boundary
markers and the version were recorded, else collect the arguments handed
to the external `defmt_decoder::Table::new`. -/
def finishParse (st : ParseState) : Except ParseError (Option TableInput) :=
  match st.error_start, st.error_end, st.warn_start, st.warn_end,
      st.info_start, st.info_end, st.debug_start, st.debug_end,
      st.trace_start, st.trace_end, st.version with
  | some es, some ee, some ws, some we, some is0, some ie, some ds,
      some de, some ts, some te, some v =>
    .ok (some (TableInput.mk st.map (ds, de) (es, ee) (is0, ie)
      (ts, te) (ws, we) v))
  | _, _, _, _, _, _, _, _, _, _, _ => .error .missingSymbol

/-- `parse` up to the call of the external `defmt_decoder::Table::new`:
`Ok(None)` when there is no `.defmt` section, the symbol loop otherwise,
then the `finishParse` check. -/
def parse (img : ElfImage) : Except ParseError (Option TableInput) :=
  match img.defmtShndx with
  | none => .ok none
  | some shndx =>
    match foldSyms shndx initState img.symbols with
    | .error e => .error e
    | .ok st => finishParse st

theorem parse_some_shndx (shndx : Nat) (syms : List ElfSymbol) :
    parse (ElfImage.mk (some shndx) syms) =
      match foldSyms shndx initState syms with
      | .error e => .error e
      | .ok st => finishParse st := rfl

/-- `applySection` never touches the recorded version. -/
theorem applySection_version (st : ParseState) (name : List Char) (addr : Nat) :
    (applySection st name addr).version = st.version := by
  unfold applySection
  repeat' split
  all_goals rfl

/-- `applyShndx` never touches the recorded version. -/
theorem applyShndx_version (shndx : Nat) (st : ParseState) (name : List Char)
    (sym : ElfSymbol) : (applyShndx shndx st name sym).version = st.version := by
  unfold applyShndx
  split
  · exact applySection_version st name sym.address
  · rfl

/-- A non-version symbol never errors and never changes the version. -/
theorem symStep_nonversion (shndx : Nat) (st : ParseState) (sym : ElfSymbol)
    (h : symIsVersion sym = false) :
    ∃ st', symStep shndx st sym = .ok st' ∧ st'.version = st.version := by
  unfold symStep
  match hn : sym.name with
  | none => exact ⟨st, rfl, rfl⟩
  | some n =>
    have h' : isVersionName n = false := by
      unfold symIsVersion at h
      rw [hn] at h
      exact h
    refine ⟨applyShndx shndx st n sym, ?_, applyShndx_version _ _ _ _⟩
    simp [h']

/-- A version symbol seen while no version is recorded records its value
and never errors. -/
theorem symStep_first_version (shndx : Nat) (st : ParseState) (sym : ElfSymbol)
    (n : List Char) (hn : sym.name = some n) (hv : isVersionName n = true)
    (h0 : st.version = none) :
    ∃ st', symStep shndx st sym = .ok st' ∧ st'.version = some (versionValue n) := by
  unfold symStep
  rw [hn, h0]
  refine ⟨applyShndx shndx { st with version := some (versionValue n) } n sym,
    ?_, applyShndx_version _ _ _ _⟩
  simp [hv]

/-- A version symbol seen while some version is already recorded returns
the conflict error naming both values, whatever they are. -/
theorem symStep_second_version (shndx : Nat) (st : ParseState) (sym : ElfSymbol)
    (n v : List Char) (hn : sym.name = some n) (hv : isVersionName n = true)
    (h0 : st.version = some v) :
    symStep shndx st sym = .error (.versionConflict v (versionValue n)) := by
  unfold symStep
  rw [hn, h0]
  simp [hv]

/-- Folding over version-free symbols never errors and preserves the
recorded version. -/
theorem foldSyms_nonversion (shndx : Nat) (l : List ElfSymbol) :
    ∀ st : ParseState, (∀ s ∈ l, symIsVersion s = false) →
      ∃ st', foldSyms shndx st l = .ok st' ∧ st'.version = st.version := by
  induction l with
  | nil => intro st _; exact ⟨st, rfl, rfl⟩
  | cons sym rest ih =>
    intro st hall
    obtain ⟨st1, hstep, hver⟩ :=
      symStep_nonversion shndx st sym (hall sym (List.mem_cons_self sym rest))
    obtain ⟨st2, hfold, hver2⟩ :=
      ih st1 (fun s hs => hall s (List.mem_cons_of_mem sym hs))
    refine ⟨st2, ?_, hver2.trans hver⟩
    unfold foldSyms
    rw [hstep]
    exact hfold

/-- A DWARF location-expression operation, as far as `exprloc2address`
distinguishes them: an absolute-address operation or anything else. -/
inductive Op where
  | address (a : Nat)
  | other
deriving DecidableEq, Repr

/-- `exprloc2address`: scan the expression's operation sequence and return
the first absolute-address operation's address; error if none occurs. -/
def exprloc2address : List Op → Except String Nat
  | [] => .error "Operation Address not found"
  | .address a :: _ => .ok a
  | .other :: rest => exprloc2address rest

/-- A line-number-program file entry as `file_index_to_path` reads it: the
recorded directory (already resolved to a string, possibly absent) and the
file's base name. -/
structure FileEntry where
  directory : Option String
  pathName : String
deriving DecidableEq, Repr

/-- The slice of a compilation unit that `file_index_to_path` consumes:
whether a line program exists, its file table (`header.file(index)`), and
the unit's compilation directory. -/
structure CUnit where
  hasLineProgram : Bool
  files : List (Nat × FileEntry)
  compDir : Option String
deriving DecidableEq, Repr

/-- First-match association-list lookup (`BTreeMap` reads, `header.file`). -/
def lookupKey {α : Type} (m : List (Nat × α)) (k : Nat) : Option α :=
  match m with
  | [] => none
  | (k', v) :: rest => if k' = k then some v else lookupKey rest k

/-- `Path::is_absolute` on Unix: the path starts with `/`. -/
def isAbsolute (s : String) : Bool :=
  match s.data with
  | c :: _ => c = '/'
  | [] => false

/-- `PathBuf::push`: an absolute component replaces the path, a relative
one is appended. Paths are kept as their pushed components. -/
def pathPush (p : List String) (s : String) : List String :=
  if isAbsolute s then [s] else p ++ [s]

/-- `file_index_to_path`: reject index zero ("no file"), require a line
program and a file entry for the index, then combine the compilation
directory (when the recorded directory is relative), the recorded
directory, and the file's base name. -/
def file_index_to_path (index : Nat) (unit : CUnit) : Except String (List String) :=
  if index = 0 then .error "FileIndex was zero"
  else if unit.hasLineProgram = false then .error "no LineProgram"
  else
    match lookupKey unit.files index with
    | none => .error "no FileEntry"
    | some file =>
      let p : List String := []
      let p :=
        match file.directory with
        | some dir =>
          let p :=
            if isAbsolute dir = false then
              match unit.compDir with
              | some cd => pathPush p cd
              | none => p
            else p
          pathPush p dir
        | none => p
      .ok (pathPush p file.pathName)

/-- `struct Location { file, line, module }` (the path as its pushed
components, the module as the colon-joined namespace segments). -/
structure Location where
  file : List String
  line : Nat
  module : String
deriving DecidableEq, Repr

/-- One DWARF debugging-information entry as the walk in `get_locations`
consumes it: the depth delta reported by `next_dfs`, and for namespace and
variable entries the attributes the source extracts. -/
inductive DebugEntry where
  | namespaceEntry (delta : Int) (name : Option String)
  | variableEntry (delta : Int) (name : Option (List Char))
      (linkageName : Option (List Char)) (declFile : Option Nat)
      (declLine : Option Nat) (location : Option (List Op))
  | otherEntry (delta : Int)
deriving DecidableEq, Repr

/-- The namespace-stack update on entering a named namespace: pop once for
each index in `(depth as usize)..segments.len()+1`, then push the new
name. A negative depth wraps to a huge `usize` in the source, so the range
is empty and nothing is popped. -/
def truncPush (segments : List String) (depth : Int) (n : String) : List String :=
  if depth < 0 then segments ++ [n]
  else segments.take (depth.toNat - 1) ++ [n]

/-- Errors `get_locations` can raise per entry. -/
inductive GlError where
  | missingAtSuffix (linkage : List Char)
  | addressMissing
  | fileError (msg : String)
  | addressCollision (addr : Nat) (old new : Location)
deriving DecidableEq, Repr

/-- Mutable state of the DFS walk: the running depth, the namespace
segment stack, and the address → `Location` map under construction. -/
structure WalkState where
  depth : Int
  segments : List String
  locs : List (Nat × Location)
deriving DecidableEq, Repr

/-- Processing of a single DFS entry inside `get_locations`'s
`while let Some((delta_depth, entry)) = cursor.next_dfs()` loop. -/
def stepEntry (liveSyms : List (List Char)) (unit : CUnit) (st : WalkState) :
    DebugEntry → Except GlError WalkState
  | .namespaceEntry d nameOpt =>
    let depth := st.depth + d
    let segments :=
      match nameOpt with
      | some n => truncPush st.segments depth n
      | none => st.segments
    .ok { st with depth := depth, segments := segments }
  | .otherEntry d => .ok { st with depth := st.depth + d }
  | .variableEntry d nameOpt linkageOpt fileOpt lineOpt locOpt =>
    let st1 : WalkState := { st with depth := st.depth + d }
    match nameOpt, linkageOpt, fileOpt, lineOpt, locOpt with
    | some n, some ln, some fi, some li, some lo =>
      if n = ("DEFMT_LOG_STATEMENT").data then
        match stripAtSuffix ln with
        | none => .error (.missingAtSuffix ln)
        | some ident =>
          if ident ∈ liveSyms then
            match exprloc2address lo with
            | .error _ => .error .addressMissing
            | .ok addr =>
              match file_index_to_path fi unit with
              | .error m => .error (.fileError m)
              | .ok file =>
                let location := Location.mk file li (String.intercalate "::" st1.segments)
                match lookupKey st1.locs addr with
                | some old => .error (.addressCollision addr old location)
                | none => .ok { st1 with locs := st1.locs ++ [(addr, location)] }
          else .ok st1
      else .ok st1
    | _, _, _, _, _ => .ok st1

/-- The whole DFS loop over one unit's entries, with the `bail!`/`?` early
exits. -/
def walkEntries (liveSyms : List (List Char)) (unit : CUnit) :
    WalkState → List DebugEntry → Except GlError WalkState
  | st, [] => .ok st
  | st, e :: rest =>
    match stepEntry liveSyms unit st e with
    | .error err => .error err
    | .ok st' => walkEntries liveSyms unit st' rest

/-- `get_locations` for one compilation unit: walk the unit's entries in
DFS pre-order starting from depth 0, an empty namespace stack and an empty
map, and return the map. (The source iterates all units with the map
shared across them and depth/segments reset per unit; one unit suffices
for the properties proved here.) -/
def get_locations (liveSyms : List (List Char)) (unit : CUnit)
    (entries : List DebugEntry) : Except GlError (List (Nat × Location)) :=
  match walkEntries liveSyms unit (WalkState.mk 0 [] []) entries with
  | .error e => .error e
  | .ok st => .ok st.locs

/-- `splitn(2, '@').next()` always yields the text before the first `'@'`
(the whole string when no `'@'` occurs). -/
theorem stripAtSuffix_eq (s : List Char) :
    stripAtSuffix s = some (s.takeWhile (fun c => c ≠ '@')) := by
  unfold stripAtSuffix splitn2
  by_cases h : '@' ∈ s
  · simp [h]
  · simp only [h, if_neg, not_false_iff, List.head?]
    congr 1
    symm
    exact List.takeWhile_eq_self_iff.2 (by
      intro c hc
      simp only [decide_eq_true_eq, ne_eq]
      intro hEq; exact h (hEq ▸ hc))

theorem walkEntries_cons (live : List (List Char)) (unit : CUnit)
    (st : WalkState) (e : DebugEntry) (rest : List DebugEntry) :
    walkEntries live unit st (e :: rest) =
      match stepEntry live unit st e with
      | .error err => .error err
      | .ok st' => walkEntries live unit st' rest := rfl

/-- `walkEntries` over `l1 ++ l2` runs `l1` then `l2`, short-circuiting on
error. -/
theorem walkEntries_append (live : List (List Char)) (unit : CUnit)
    (l1 l2 : List DebugEntry) :
    ∀ st : WalkState,
      walkEntries live unit st (l1 ++ l2) =
        match walkEntries live unit st l1 with
        | .error err => .error err
        | .ok st' => walkEntries live unit st' l2 := by
  induction l1 with
  | nil => intro st; rfl
  | cons e rest ih =>
    intro st
    rw [List.cons_append, walkEntries_cons, walkEntries_cons]
    match h : stepEntry live unit st e with
    | .error err => rfl
    | .ok st' => exact ih st'

theorem get_locations_eq (live : List (List Char)) (unit : CUnit)
    (es : List DebugEntry) :
    get_locations live unit es =
      match walkEntries live unit (WalkState.mk 0 [] []) es with
      | .error e => .error e
      | .ok st => .ok st.locs := rfl

/-- A call-site variable entry whose stripped linkage name is not live is
skipped: only the depth advances, exactly as for an inert entry. -/
theorem stepEntry_dead (live : List (List Char)) (unit : CUnit)
    (st : WalkState) (d : Int) (ln : List Char) (fi li : Nat) (lo : List Op)
    (h : (ln.takeWhile (fun c => c ≠ '@')) ∉ live) :
    stepEntry live unit st
        (.variableEntry d (some ("DEFMT_LOG_STATEMENT").data) (some ln)
          (some fi) (some li) (some lo)) =
      .ok { st with depth := st.depth + d } := by
  have h' : List.takeWhile (fun c => !decide (c = '@')) ln ∉ live := by
    simpa using h
  simp only [stepEntry, stripAtSuffix_eq]
  simp [h']

/-- A live call-site variable entry whose address resolution succeeds but
whose address is already bound errors with the collision, naming the old
and the new `Location`. -/
theorem stepEntry_collision (live : List (List Char)) (unit : CUnit)
    (st : WalkState) (d : Int) (ln : List Char) (fi li : Nat) (lo : List Op)
    (addr : Nat) (old : Location) (file : List String)
    (hlive : (ln.takeWhile (fun c => c ≠ '@')) ∈ live)
    (haddr : exprloc2address lo = .ok addr)
    (hfile : file_index_to_path fi unit = .ok file)
    (hold : lookupKey st.locs addr = some old) :
    stepEntry live unit st
        (.variableEntry d (some ("DEFMT_LOG_STATEMENT").data) (some ln)
          (some fi) (some li) (some lo)) =
      .error (.addressCollision addr old
        (Location.mk file li (String.intercalate "::" st.segments))) := by
  have hlive' : List.takeWhile (fun c => !decide (c = '@')) ln ∈ live := by
    simpa using hlive
  simp only [stepEntry, stripAtSuffix_eq]
  simp [hlive', haddr, hfile, hold]

theorem lookupKey_none_iff {α : Type} (m : List (Nat × α)) (k : Nat) :
    lookupKey m k = none ↔ k ∉ m.map Prod.fst := by
  induction m with
  | nil => simp [lookupKey]
  | cons p rest ih =>
    obtain ⟨k', v⟩ := p
    unfold lookupKey
    by_cases h : k' = k
    · simp [h]
    · simp only [h, if_neg, not_false_iff, List.map_cons, List.mem_cons]
      rw [ih]
      constructor
      · intro hk hc
        rcases hc with hc | hc
        · exact h hc.symm
        · exact hk hc
      · intro hk hc
        exact hk (Or.inr hc)

/-- A successful step either leaves the map alone or appends one binding
at a previously absent key. -/
theorem stepEntry_locs_cases (live : List (List Char)) (unit : CUnit)
    (st : WalkState) (e : DebugEntry) (st' : WalkState)
    (h : stepEntry live unit st e = .ok st') :
    st'.locs = st.locs ∨
    ∃ a loc, lookupKey st.locs a = none ∧ st'.locs = st.locs ++ [(a, loc)] := by
  cases e with
  | namespaceEntry d nameOpt =>
    unfold stepEntry at h
    cases h
    left; rfl
  | otherEntry d =>
    unfold stepEntry at h
    cases h
    left; rfl
  | variableEntry d nameOpt linkageOpt fileOpt lineOpt locOpt =>
    unfold stepEntry at h
    dsimp only at h
    repeat' split at h
    all_goals
      first
      | (cases h; left; rfl)
      | (cases h; right; exact ⟨_, _, by assumption, rfl⟩)
      | cases h

/-- The walk preserves distinctness of the map's keys: a binding is added
only after `lookupKey` reported the key absent. -/
theorem walkEntries_nodup (live : List (List Char)) (unit : CUnit)
    (es : List DebugEntry) :
    ∀ st st' : WalkState, walkEntries live unit st es = .ok st' →
      (st.locs.map Prod.fst).Nodup → (st'.locs.map Prod.fst).Nodup := by
  induction es with
  | nil =>
    intro st st' h hn
    cases h
    exact hn
  | cons e rest ih =>
    intro st st' h hn
    rw [walkEntries_cons] at h
    match hs : stepEntry live unit st e with
    | .error err => rw [hs] at h; cases h
    | .ok st1 =>
      rw [hs] at h
      refine ih st1 st' h ?_
      rcases stepEntry_locs_cases live unit st e st1 hs with hsame | ⟨a, loc, hnone, happ⟩
      · rw [hsame]; exact hn
      · rw [happ, List.map_append]
        rw [List.nodup_append]
        refine ⟨hn, List.nodup_singleton a, ?_⟩
        intro x hx hx'
        simp only [List.map_cons, List.map_nil, List.mem_singleton] at hx'
        subst hx'
        exact (lookupKey_none_iff st.locs x).1 hnone hx

theorem foldSyms_cons (shndx : Nat) (st : ParseState) (sym : ElfSymbol)
    (rest : List ElfSymbol) :
    foldSyms shndx st (sym :: rest) =
      match symStep shndx st sym with
      | .error e => .error e
      | .ok st' => foldSyms shndx st' rest := rfl

/-- `foldSyms` over `l1 ++ l2` runs `l1` then `l2`, short-circuiting on
error. -/
theorem foldSyms_append (shndx : Nat) (l1 l2 : List ElfSymbol) :
    ∀ st : ParseState,
      foldSyms shndx st (l1 ++ l2) =
        match foldSyms shndx st l1 with
        | .error e => .error e
        | .ok st' => foldSyms shndx st' l2 := by
  induction l1 with
  | nil => intro st; rfl
  | cons sym rest ih =>
    intro st
    rw [List.cons_append, foldSyms_cons, foldSyms_cons]
    match h : symStep shndx st sym with
    | .error e => rfl
    | .ok st' => exact ih st'

end Elf2Table

/-- C7: for every binary image that parses as a well-formed object file but
has no `.defmt` section, `parse` returns `Ok(None)` ("no table") and never
an error. -/
theorem c7_no_section_no_table (img : Elf2Table.ElfImage)
    (h : img.defmtShndx = none) :
    Elf2Table.parse img = .ok none := by
  unfold Elf2Table.parse
  rw [h]

/-- Witness for C7 at a concrete image with symbols but no `.defmt`
section. -/
theorem c7_no_section_no_table_witness :
    Elf2Table.parse
      (Elf2Table.ElfImage.mk none
        [Elf2Table.ElfSymbol.mk (some ("x").data) (some 3) 7]) = .ok none :=
  c7_no_section_no_table _ rfl

/-- C3 counterexample: an image whose symbol table carries the version
marker `_defmt_version_ = 1` twice — the same value both times — still
fails with the version-conflict error naming the value twice, refuting
"a duplicate version symbol bearing the same value is not a conflict". -/
theorem c3_same_value_duplicate_conflicts :
    Elf2Table.parse
      (Elf2Table.ElfImage.mk (some 0)
        [Elf2Table.ElfSymbol.mk (some ("_defmt_version_ = 1").data) none 0,
         Elf2Table.ElfSymbol.mk (some ("_defmt_version_ = 1").data) none 4]) =
      .error (.versionConflict ("1").data ("1").data) := by
  rfl

/-- C3 (amended): the symbol scan records the first version symbol's value,
and **any** second version symbol observed later — whether its value
differs or not — causes extraction to fail with a version-conflict error
naming both recovered values. -/
theorem c3_second_version_symbol_conflicts (i : Nat)
    (pre mid rest : List Elf2Table.ElfSymbol) (s1 s2 : Elf2Table.ElfSymbol)
    (n1 n2 : List Char)
    (hp : ∀ s ∈ pre, Elf2Table.symIsVersion s = false)
    (hm : ∀ s ∈ mid, Elf2Table.symIsVersion s = false)
    (h1 : s1.name = some n1) (h1v : Elf2Table.isVersionName n1 = true)
    (h2 : s2.name = some n2) (h2v : Elf2Table.isVersionName n2 = true) :
    Elf2Table.parse (Elf2Table.ElfImage.mk (some i) (pre ++ s1 :: (mid ++ s2 :: rest))) =
      .error (.versionConflict (Elf2Table.versionValue n1)
        (Elf2Table.versionValue n2)) := by
  have hfold :
      Elf2Table.foldSyms i Elf2Table.initState (pre ++ s1 :: (mid ++ s2 :: rest)) =
        .error (.versionConflict (Elf2Table.versionValue n1)
          (Elf2Table.versionValue n2)) := by
    obtain ⟨stP, hP, hPv⟩ := Elf2Table.foldSyms_nonversion i pre Elf2Table.initState hp
    obtain ⟨st1, h1s, h1ver⟩ :=
      Elf2Table.symStep_first_version i stP s1 n1 h1 h1v (hPv.trans rfl)
    obtain ⟨stM, hM, hMv⟩ := Elf2Table.foldSyms_nonversion i mid st1 hm
    have h2s := Elf2Table.symStep_second_version i stM s2 n2
      (Elf2Table.versionValue n1) h2 h2v (hMv.trans h1ver)
    rw [Elf2Table.foldSyms_append, hP]
    show Elf2Table.foldSyms i stP (s1 :: (mid ++ s2 :: rest)) = _
    rw [Elf2Table.foldSyms_cons, h1s]
    show Elf2Table.foldSyms i st1 (mid ++ s2 :: rest) = _
    rw [Elf2Table.foldSyms_append, hM]
    show Elf2Table.foldSyms i stM (s2 :: rest) = _
    rw [Elf2Table.foldSyms_cons, h2s]
  rw [Elf2Table.parse_some_shndx, hfold]

/-- Witness for the amended C3: two version symbols with differing values
produce the conflict error naming both. -/
theorem c3_second_version_symbol_conflicts_witness :
    Elf2Table.parse
      (Elf2Table.ElfImage.mk (some 0)
        [Elf2Table.ElfSymbol.mk (some ("other").data) (some 0) 1,
         Elf2Table.ElfSymbol.mk (some ("_defmt_version_ = 1").data) none 0,
         Elf2Table.ElfSymbol.mk (some ("_defmt_version_ = 2").data) none 4]) =
      .error (.versionConflict ("1").data ("2").data) := by
  have h := c3_second_version_symbol_conflicts 0
    [Elf2Table.ElfSymbol.mk (some ("other").data) (some 0) 1] [] []
    (Elf2Table.ElfSymbol.mk (some ("_defmt_version_ = 1").data) none 0)
    (Elf2Table.ElfSymbol.mk (some ("_defmt_version_ = 2").data) none 4)
    ("_defmt_version_ = 1").data ("_defmt_version_ = 2").data
    (by decide) (by decide) rfl (by decide) rfl (by decide)
  have hv1 : Elf2Table.versionValue ("_defmt_version_ = 1").data = ("1").data := by decide
  have hv2 : Elf2Table.versionValue ("_defmt_version_ = 2").data = ("2").data := by decide
  rw [hv1, hv2] at h
  exact h

/-- C10: for every linkage-name string, the identifying name is the text
before the first `'@'` (the whole string when no `'@'` occurs), and the
"is missing `@` suffix" error branch is unreachable: `splitn(2,'@').next()`
is `Some` on every input. -/
theorem c10_strip_at_suffix_total (s : List Char) :
    Elf2Table.stripAtSuffix s = some (s.takeWhile (fun c => c ≠ '@')) ∧
    ('@' ∉ s → Elf2Table.stripAtSuffix s = some s) := by
  constructor
  · exact Elf2Table.stripAtSuffix_eq s
  · intro h
    unfold Elf2Table.stripAtSuffix Elf2Table.splitn2
    simp [h]

/-- Witness for C10 at a concrete linkage name. -/
theorem c10_strip_at_suffix_total_witness :
    Elf2Table.stripAtSuffix ['a', 'b', '@', '1'] = some ['a', 'b'] ∧
    Elf2Table.stripAtSuffix ['a', 'b'] = some ['a', 'b'] := by
  refine ⟨?_, ?_⟩
  · have h := (c10_strip_at_suffix_total ['a', 'b', '@', '1']).1
    simpa using h
  · exact (c10_strip_at_suffix_total ['a', 'b']).2 (by decide)

/-- C4: a debug-info entry named as a log call site whose identifying name
(the linkage name before `'@'`) is absent from the live-symbol set is
excluded from the Locations map silently and without error: the step only
advances the depth, exactly like an inert entry, so the whole resolution
yields the same result as if the entry were absent. -/
theorem c4_dead_callsite_excluded (live : List (List Char))
    (unit : Elf2Table.CUnit) (st : Elf2Table.WalkState) (d : Int)
    (ln : List Char) (fi li : Nat) (lo : List Elf2Table.Op)
    (es1 es2 : List Elf2Table.DebugEntry)
    (h : (ln.takeWhile (fun c => c ≠ '@')) ∉ live) :
    Elf2Table.stepEntry live unit st
        (.variableEntry d (some ("DEFMT_LOG_STATEMENT").data) (some ln)
          (some fi) (some li) (some lo)) =
      .ok { st with depth := st.depth + d } ∧
    Elf2Table.get_locations live unit
        (es1 ++ .variableEntry d (some ("DEFMT_LOG_STATEMENT").data) (some ln)
          (some fi) (some li) (some lo) :: es2) =
      Elf2Table.get_locations live unit (es1 ++ .otherEntry d :: es2) := by
  refine ⟨Elf2Table.stepEntry_dead live unit st d ln fi li lo h, ?_⟩
  have hw : Elf2Table.walkEntries live unit (Elf2Table.WalkState.mk 0 [] [])
      (es1 ++ .variableEntry d (some ("DEFMT_LOG_STATEMENT").data) (some ln)
        (some fi) (some li) (some lo) :: es2) =
      Elf2Table.walkEntries live unit (Elf2Table.WalkState.mk 0 [] [])
        (es1 ++ .otherEntry d :: es2) := by
    rw [Elf2Table.walkEntries_append, Elf2Table.walkEntries_append]
    match hx : Elf2Table.walkEntries live unit (Elf2Table.WalkState.mk 0 [] []) es1 with
    | .error e => rfl
    | .ok stM =>
      show Elf2Table.walkEntries live unit stM
          (.variableEntry d (some ("DEFMT_LOG_STATEMENT").data) (some ln)
            (some fi) (some li) (some lo) :: es2) =
        Elf2Table.walkEntries live unit stM (.otherEntry d :: es2)
      rw [Elf2Table.walkEntries_cons,
        Elf2Table.stepEntry_dead live unit stM d ln fi li lo h]
      rfl
  rw [Elf2Table.get_locations_eq, Elf2Table.get_locations_eq, hw]

/-- Witness for C4 at a concrete dead call-site entry. -/
theorem c4_dead_callsite_excluded_witness :
    Elf2Table.stepEntry [] (Elf2Table.CUnit.mk false [] none)
        (Elf2Table.WalkState.mk 0 [] [])
        (.variableEntry 1 (some ("DEFMT_LOG_STATEMENT").data)
          (some ("dead@1").data) (some 1) (some 2)
          (some [Elf2Table.Op.address 5])) =
      .ok (Elf2Table.WalkState.mk (0 + 1) [] []) ∧
    Elf2Table.get_locations [] (Elf2Table.CUnit.mk false [] none)
        ([] ++ .variableEntry 1 (some ("DEFMT_LOG_STATEMENT").data)
          (some ("dead@1").data) (some 1) (some 2)
          (some [Elf2Table.Op.address 5]) :: []) =
      Elf2Table.get_locations [] (Elf2Table.CUnit.mk false [] none)
        ([] ++ .otherEntry 1 :: []) :=
  c4_dead_callsite_excluded [] (Elf2Table.CUnit.mk false [] none)
    (Elf2Table.WalkState.mk 0 [] []) 1 (("dead@1").data) 1 2
    [Elf2Table.Op.address 5] [] [] (by decide)

/-- C5: within one resolution pass, a second live call-site entry
resolving to an address already bound makes the step fail with a fatal
address-collision error carrying both the old and the new `Location`, and
so the whole `get_locations` run fails with that error; moreover every
successful run produces a map whose keys are pairwise distinct. -/
theorem c5_address_collision_fatal (live : List (List Char))
    (unit : Elf2Table.CUnit) (st : Elf2Table.WalkState) (d : Int)
    (ln : List Char) (fi li : Nat) (lo : List Elf2Table.Op) (addr : Nat)
    (old : Elf2Table.Location) (file : List String)
    (es1 es2 : List Elf2Table.DebugEntry)
    (hlive : (ln.takeWhile (fun c => c ≠ '@')) ∈ live)
    (haddr : Elf2Table.exprloc2address lo = .ok addr)
    (hfile : Elf2Table.file_index_to_path fi unit = .ok file)
    (hold : Elf2Table.lookupKey st.locs addr = some old)
    (hwalk : Elf2Table.walkEntries live unit (Elf2Table.WalkState.mk 0 [] []) es1 =
      .ok st) :
    Elf2Table.stepEntry live unit st
        (.variableEntry d (some ("DEFMT_LOG_STATEMENT").data) (some ln)
          (some fi) (some li) (some lo)) =
      .error (.addressCollision addr old
        (Elf2Table.Location.mk file li (String.intercalate "::" st.segments))) ∧
    Elf2Table.get_locations live unit
        (es1 ++ .variableEntry d (some ("DEFMT_LOG_STATEMENT").data) (some ln)
          (some fi) (some li) (some lo) :: es2) =
      .error (.addressCollision addr old
        (Elf2Table.Location.mk file li (String.intercalate "::" st.segments))) ∧
    ∀ (es : List Elf2Table.DebugEntry) (m : List (Nat × Elf2Table.Location)),
      Elf2Table.get_locations live unit es = .ok m → (m.map Prod.fst).Nodup := by
  have hstep := Elf2Table.stepEntry_collision live unit st d ln fi li lo addr old
    file hlive haddr hfile hold
  refine ⟨hstep, ?_, ?_⟩
  · have hw : Elf2Table.walkEntries live unit (Elf2Table.WalkState.mk 0 [] [])
        (es1 ++ .variableEntry d (some ("DEFMT_LOG_STATEMENT").data) (some ln)
          (some fi) (some li) (some lo) :: es2) =
        .error (.addressCollision addr old
          (Elf2Table.Location.mk file li (String.intercalate "::" st.segments))) := by
      rw [Elf2Table.walkEntries_append, hwalk]
      show Elf2Table.walkEntries live unit st
          (.variableEntry d (some ("DEFMT_LOG_STATEMENT").data) (some ln)
            (some fi) (some li) (some lo) :: es2) = _
      rw [Elf2Table.walkEntries_cons, hstep]
    rw [Elf2Table.get_locations_eq, hw]
  · intro es m hm
    rw [Elf2Table.get_locations_eq] at hm
    match hw2 : Elf2Table.walkEntries live unit (Elf2Table.WalkState.mk 0 [] []) es with
    | .error e => rw [hw2] at hm; cases hm
    | .ok stF =>
      rw [hw2] at hm
      cases hm
      exact Elf2Table.walkEntries_nodup live unit es _ _ hw2 (by simp)

/-- Witness for C5: two call-site entries both resolving to address 0x200
(512) make resolution fail with the collision error naming both
locations. -/
theorem c5_address_collision_fatal_witness :
    Elf2Table.stepEntry [("x").data]
        (Elf2Table.CUnit.mk true [(1, Elf2Table.FileEntry.mk none "file.rs")] none)
        (Elf2Table.WalkState.mk 0 []
          [(512, Elf2Table.Location.mk ["file.rs"] 10 "")])
        (.variableEntry 0 (some ("DEFMT_LOG_STATEMENT").data)
          (some ("x@2").data) (some 1) (some 20)
          (some [Elf2Table.Op.address 512])) =
      .error (.addressCollision 512 (Elf2Table.Location.mk ["file.rs"] 10 "")
        (Elf2Table.Location.mk ["file.rs"] 20 (String.intercalate "::" []))) ∧
    Elf2Table.get_locations [("x").data]
        (Elf2Table.CUnit.mk true [(1, Elf2Table.FileEntry.mk none "file.rs")] none)
        ([.variableEntry 0 (some ("DEFMT_LOG_STATEMENT").data)
            (some ("x@1").data) (some 1) (some 10)
            (some [Elf2Table.Op.address 512])] ++
          .variableEntry 0 (some ("DEFMT_LOG_STATEMENT").data)
            (some ("x@2").data) (some 1) (some 20)
            (some [Elf2Table.Op.address 512]) :: []) =
      .error (.addressCollision 512 (Elf2Table.Location.mk ["file.rs"] 10 "")
        (Elf2Table.Location.mk ["file.rs"] 20 (String.intercalate "::" []))) := by
  have h := c5_address_collision_fatal [("x").data]
    (Elf2Table.CUnit.mk true [(1, Elf2Table.FileEntry.mk none "file.rs")] none)
    (Elf2Table.WalkState.mk 0 [] [(512, Elf2Table.Location.mk ["file.rs"] 10 "")])
    0 (("x@2").data) 1 20 [Elf2Table.Op.address 512] 512
    (Elf2Table.Location.mk ["file.rs"] 10 "") ["file.rs"]
    [Elf2Table.DebugEntry.variableEntry 0 (some ("DEFMT_LOG_STATEMENT").data)
      (some ("x@1").data) (some 1) (some 10)
      (some [Elf2Table.Op.address 512])] []
    (by decide) rfl rfl rfl rfl
  exact ⟨h.1, h.2.1⟩

namespace DefmtPrint

/-- Answer of the external `table.decode(&msg)` (`defmt_decoder`): a
decoded frame with the consumed byte count, or `UnexpectedEof` (valid but
incomplete prefix), or `Malformed` (unrecoverable). The frame type `F` is
kept abstract. -/
inductive TDResult (F : Type) where
  | ok (frame : F) (consumed : Nat)
  | unexpectedEof
  | malformed
deriving DecidableEq, Repr

/-- How one pass of the inner `while let Some(end_idx) = ...` loop ended:
scanned to the end of the buffered data, broke on `UnexpectedEof` to await
more input, or hit `Malformed` (the source `return Err`s). -/
inductive ScanStatus where
  | cont
  | eofBlocked
  | fatal
deriving DecidableEq, Repr

/-- `data.iter().position(|x| *x == 0)` together with the window split it
induces: the zero-free bytes before the first zero byte and the bytes
after it, or `none` when the window holds no zero byte. -/
def splitAtZero : List Nat → Option (List Nat × List Nat)
  | [] => none
  | b :: rest =>
    if b = 0 then some ([], rest)
    else
      match splitAtZero rest with
      | none => none
      | some (pre, post) => some (b :: pre, post)

theorem splitAtZero_some_decomp (l pre post : List Nat)
    (h : splitAtZero l = some (pre, post)) :
    l = pre ++ 0 :: post ∧ post.length < l.length := by
  induction l generalizing pre with
  | nil => cases h
  | cons b rest ih =>
    unfold splitAtZero at h
    by_cases hb : b = 0
    · rw [if_pos hb] at h
      cases h
      subst hb
      exact ⟨rfl, by simp⟩
    · rw [if_neg hb] at h
      match hs : splitAtZero rest with
      | none => rw [hs] at h; cases h
      | some (pre', post') =>
        rw [hs] at h
        cases h
        obtain ⟨hdecomp, hlen⟩ := ih pre' hs
        constructor
        · rw [List.cons_append, ← hdecomp]
        · simp only [List.length_cons]
          omega

set_option linter.unusedVariables false in
/-- The inner loop of `main` over one read cycle's buffered data: scan for
the next zero byte; skip a zero-length frame; decode the bytes before the
zero with the opaque rzCOBS decoder `df` (failure skips the one frame) and
the payload with the opaque table decoder `td`; emit the decoded frame and
keep scanning past the zero, break with the remainder retained on
`UnexpectedEof`, abort on `Malformed`. Returns the emitted frames in
order, the bytes retained for the next read (the source keeps them by
`rotate_right(leftover); truncate(leftover)`), and how the pass ended.
(The source advances with `data = &data[next_start..]` guarded by
`frames.len() > next_start`; when the guard fails `data` is set to `[]`
and the loop breaks, which coincides with taking the suffix, since
`next_start ≤ data.len() ≤ frames.len()`.) -/
def scan {F : Type} (df : List Nat → Option (List Nat))
    (td : List Nat → TDResult F) (data : List Nat) :
    List F × List Nat × ScanStatus :=
  match h : splitAtZero data with
  | none => ([], data, .cont)
  | some (pre, post) =>
    if pre = [] then scan df td post
    else
      match df pre with
      | none => scan df td post
      | some msg =>
        match td msg with
        | .ok frame _ =>
          let r := scan df td post
          (frame :: r.1, r.2.1, r.2.2)
        | .unexpectedEof => ([], data, .eofBlocked)
        | .malformed => ([], data, .fatal)
termination_by data.length
decreasing_by
  all_goals exact (splitAtZero_some_decomp data pre post h).2

theorem scan_none {F : Type} (df : List Nat → Option (List Nat))
    (td : List Nat → TDResult F) (data : List Nat)
    (h : splitAtZero data = none) :
    scan df td data = ([], data, .cont) := by
  unfold scan
  split
  · rfl
  · rename_i pre post heq
    rw [h] at heq
    cases heq

theorem scan_skip {F : Type} (df : List Nat → Option (List Nat))
    (td : List Nat → TDResult F) (data post : List Nat)
    (h : splitAtZero data = some ([], post)) :
    scan df td data = scan df td post := by
  conv_lhs => unfold scan
  split
  · rename_i heq; rw [h] at heq; cases heq
  · rename_i pre post' heq
    rw [h] at heq
    cases heq
    rw [if_pos rfl]

theorem scan_badframe {F : Type} (df : List Nat → Option (List Nat))
    (td : List Nat → TDResult F) (data pre post : List Nat)
    (h : splitAtZero data = some (pre, post)) (hpre : pre ≠ [])
    (hdf : df pre = none) :
    scan df td data = scan df td post := by
  conv_lhs => unfold scan
  split
  · rename_i heq; rw [h] at heq; cases heq
  · rename_i pre' post' heq
    rw [h] at heq
    cases heq
    rw [if_neg hpre, hdf]

theorem scan_frame_ok {F : Type} (df : List Nat → Option (List Nat))
    (td : List Nat → TDResult F) (data pre post msg : List Nat) (f : F) (cn : Nat)
    (h : splitAtZero data = some (pre, post)) (hpre : pre ≠ [])
    (hdf : df pre = some msg) (htd : td msg = .ok f cn) :
    scan df td data =
      (f :: (scan df td post).1, (scan df td post).2.1, (scan df td post).2.2) := by
  conv_lhs => unfold scan
  split
  · rename_i heq; rw [h] at heq; cases heq
  · rename_i pre' post' heq
    rw [h] at heq
    cases heq
    rw [if_neg hpre, hdf]
    dsimp only
    rw [htd]

theorem scan_eof {F : Type} (df : List Nat → Option (List Nat))
    (td : List Nat → TDResult F) (data pre post msg : List Nat)
    (h : splitAtZero data = some (pre, post)) (hpre : pre ≠ [])
    (hdf : df pre = some msg) (htd : td msg = .unexpectedEof) :
    scan df td data = ([], data, .eofBlocked) := by
  conv_lhs => unfold scan
  split
  · rename_i heq; rw [h] at heq; cases heq
  · rename_i pre' post' heq
    rw [h] at heq
    cases heq
    rw [if_neg hpre, hdf]
    dsimp only
    rw [htd]

theorem scan_malformed {F : Type} (df : List Nat → Option (List Nat))
    (td : List Nat → TDResult F) (data pre post msg : List Nat)
    (h : splitAtZero data = some (pre, post)) (hpre : pre ≠ [])
    (hdf : df pre = some msg) (htd : td msg = .malformed) :
    scan df td data = ([], data, .fatal) := by
  conv_lhs => unfold scan
  split
  · rename_i heq; rw [h] at heq; cases heq
  · rename_i pre' post' heq
    rw [h] at heq
    cases heq
    rw [if_neg hpre, hdf]
    dsimp only
    rw [htd]

theorem splitAtZero_append_some (l c pre post : List Nat)
    (h : splitAtZero l = some (pre, post)) :
    splitAtZero (l ++ c) = some (pre, post ++ c) := by
  induction l generalizing pre with
  | nil => cases h
  | cons b rest ih =>
    rw [List.cons_append]
    simp only [splitAtZero] at h ⊢
    by_cases hb : b = 0
    · rw [if_pos hb] at h ⊢
      cases h
      rfl
    · rw [if_neg hb] at h ⊢
      match hs : splitAtZero rest with
      | none => rw [hs] at h; cases h
      | some (pre1, post1) =>
        rw [hs] at h
        cases h
        rw [ih pre1 hs]

theorem scan_append_master {F : Type} (df : List Nat → Option (List Nat))
    (td : List Nat → TDResult F) :
    ∀ (n : Nat) (b c : List Nat), b.length ≤ n → ∀ (e : List F) (l : List Nat) (s : ScanStatus),
      scan df td b = (e, l, s) →
      scan df td (b ++ c) =
        (if s = ScanStatus.cont then
          (e ++ (scan df td (l ++ c)).1, (scan df td (l ++ c)).2.1,
            (scan df td (l ++ c)).2.2)
        else (e, l ++ c, s)) := by
  intro n
  induction n with
  | zero =>
    intro b c hlen e l s hscan
    have hb : b = [] := List.length_eq_zero.1 (Nat.le_zero.1 hlen)
    subst hb
    rw [scan_none df td [] rfl] at hscan
    cases hscan
    rw [if_pos rfl]
    rfl
  | succ n ih =>
    intro b c hlen e l s hscan
    match hsplit : splitAtZero b with
    | none =>
      rw [scan_none df td b hsplit] at hscan
      cases hscan
      rw [if_pos rfl]
      rfl
    | some (pre, post) =>
      obtain ⟨hdecomp, hplen⟩ := splitAtZero_some_decomp b pre post hsplit
      have hsplit2 : splitAtZero (b ++ c) = some (pre, post ++ c) :=
        splitAtZero_append_some b c pre post hsplit
      have hpostlen : post.length ≤ n := by
        have := hlen; omega
      by_cases hpre : pre = []
      · subst hpre
        rw [scan_skip df td b post hsplit] at hscan
        rw [scan_skip df td (b ++ c) (post ++ c) hsplit2]
        exact ih post c hpostlen e l s hscan
      · match hdf : df pre with
        | none =>
          rw [scan_badframe df td b pre post hsplit hpre hdf] at hscan
          rw [scan_badframe df td (b ++ c) pre (post ++ c) hsplit2 hpre hdf]
          exact ih post c hpostlen e l s hscan
        | some msg =>
          match htd : td msg with
          | .ok f cn =>
            rw [scan_frame_ok df td b pre post msg f cn hsplit hpre hdf htd] at hscan
            rw [scan_frame_ok df td (b ++ c) pre (post ++ c) msg f cn hsplit2 hpre hdf htd]
            match hrec : scan df td post with
            | (e1, l1, s1) =>
              rw [hrec] at hscan
              cases hscan
              have := ih post c hpostlen e1 l1 s1 hrec
              rw [this]
              by_cases hs1 : s1 = ScanStatus.cont
              · rw [if_pos hs1, if_pos hs1]
                rfl
              · rw [if_neg hs1, if_neg hs1]
          | .unexpectedEof =>
            rw [scan_eof df td b pre post msg hsplit hpre hdf htd] at hscan
            rw [scan_eof df td (b ++ c) pre (post ++ c) msg hsplit2 hpre hdf htd]
            cases hscan
            rw [if_neg (by intro hc; cases hc)]
          | .malformed =>
            rw [scan_malformed df td b pre post msg hsplit hpre hdf htd] at hscan
            rw [scan_malformed df td (b ++ c) pre (post ++ c) msg hsplit2 hpre hdf htd]
            cases hscan
            rw [if_neg (by intro hc; cases hc)]

theorem scan_leftover {F : Type} (df : List Nat → Option (List Nat))
    (td : List Nat → TDResult F) :
    ∀ (n : Nat) (b : List Nat), b.length ≤ n → ∀ (e : List F) (l : List Nat) (s : ScanStatus),
      scan df td b = (e, l, s) → scan df td l = ([], l, s) := by
  intro n
  induction n with
  | zero =>
    intro b hlen e l s hscan
    have hb : b = [] := List.length_eq_zero.1 (Nat.le_zero.1 hlen)
    subst hb
    rw [scan_none df td [] rfl] at hscan
    cases hscan
    exact scan_none df td [] rfl
  | succ n ih =>
    intro b hlen e l s hscan
    match hsplit : splitAtZero b with
    | none =>
      rw [scan_none df td b hsplit] at hscan
      cases hscan
      exact scan_none df td b hsplit
    | some (pre, post) =>
      obtain ⟨hdecomp, hplen⟩ := splitAtZero_some_decomp b pre post hsplit
      have hpostlen : post.length ≤ n := by
        have := hlen; omega
      by_cases hpre : pre = []
      · subst hpre
        rw [scan_skip df td b post hsplit] at hscan
        exact ih post hpostlen e l s hscan
      · match hdf : df pre with
        | none =>
          rw [scan_badframe df td b pre post hsplit hpre hdf] at hscan
          exact ih post hpostlen e l s hscan
        | some msg =>
          match htd : td msg with
          | .ok f cn =>
            rw [scan_frame_ok df td b pre post msg f cn hsplit hpre hdf htd] at hscan
            match hrec : scan df td post with
            | (e1, l1, s1) =>
              rw [hrec] at hscan
              cases hscan
              exact ih post hpostlen e1 l1 s1 hrec
          | .unexpectedEof =>
            rw [scan_eof df td b pre post msg hsplit hpre hdf htd] at hscan
            cases hscan
            exact scan_eof df td b pre post msg hsplit hpre hdf htd
          | .malformed =>
            rw [scan_malformed df td b pre post msg hsplit hpre hdf htd] at hscan
            cases hscan
            exact scan_malformed df td b pre post msg hsplit hpre hdf htd

/-- The outer read loop of `main` over a finite sequence of reads: each
read's bytes are appended to the reassembly buffer (`frames.extend_from_slice`),
the buffer is scanned, and the scan's leftover becomes the next buffer.
Returns all emitted frames, the final buffer, and whether a `Malformed`
payload aborted the process (in which case the process exits and the
buffer is gone). -/
def run {F : Type} (df : List Nat → Option (List Nat))
    (td : List Nat → TDResult F) :
    List Nat → List (List Nat) → List F × List Nat × Bool
  | buf, [] => ([], buf, false)
  | buf, c :: cs =>
    let r := scan df td (buf ++ c)
    match r.2.2 with
    | .fatal => (r.1, [], true)
    | _ =>
      let r2 := run df td r.2.1 cs
      (r.1 ++ r2.1, r2.2.1, r2.2.2)

theorem run_cons_fatal {F : Type} (df : List Nat → Option (List Nat))
    (td : List Nat → TDResult F) (buf c : List Nat) (cs : List (List Nat))
    (e : List F) (l : List Nat)
    (h : scan df td (buf ++ c) = (e, l, ScanStatus.fatal)) :
    run df td buf (c :: cs) = (e, [], true) := by
  conv_lhs => unfold run
  rw [h]

theorem run_cons_go {F : Type} (df : List Nat → Option (List Nat))
    (td : List Nat → TDResult F) (buf c : List Nat) (cs : List (List Nat))
    (e : List F) (l : List Nat) (s : ScanStatus)
    (h : scan df td (buf ++ c) = (e, l, s)) (hs : s ≠ ScanStatus.fatal) :
    run df td buf (c :: cs) =
      (e ++ (run df td l cs).1, (run df td l cs).2.1, (run df td l cs).2.2) := by
  conv_lhs => unfold run
  rw [h]
  cases s with
  | cont => rfl
  | eofBlocked => rfl
  | fatal => exact absurd rfl hs

/-- Chunking invariance generalized over any scan-stable starting buffer. -/
theorem run_join {F : Type} (df : List Nat → Option (List Nat))
    (td : List Nat → TDResult F) :
    ∀ (chunks : List (List Nat)) (buf : List Nat) (s : ScanStatus),
      scan df td buf = ([], buf, s) → s ≠ ScanStatus.fatal →
      run df td buf chunks = run df td buf [chunks.flatten] := by
  intro chunks
  induction chunks with
  | nil =>
    intro buf s hscan hs
    have h0 : scan df td (buf ++ []) = ([], buf, s) := by
      rw [List.append_nil]; exact hscan
    rw [List.flatten_nil, run_cons_go df td buf [] [] [] buf s h0 hs]
    rfl
  | cons c cs ih =>
    intro buf s hscan hs
    rw [List.flatten_cons]
    match hr : scan df td (buf ++ c) with
    | (e, l, s1) =>
      have hassoc : buf ++ (c ++ cs.flatten) = (buf ++ c) ++ cs.flatten :=
        (List.append_assoc buf c cs.flatten).symm
      have hbig := scan_append_master df td (buf ++ c).length (buf ++ c) cs.flatten
        le_rfl e l s1 hr
      have hleft := scan_leftover df td (buf ++ c).length (buf ++ c) le_rfl e l s1 hr
      cases s1 with
      | fatal =>
        rw [if_neg (by intro hcn; cases hcn)] at hbig
        rw [run_cons_fatal df td buf c cs e l hr]
        rw [run_cons_fatal df td buf (c ++ cs.flatten) [] e (l ++ cs.flatten)
          (by rw [hassoc]; exact hbig)]
      | eofBlocked =>
        rw [if_neg (by intro hcn; cases hcn)] at hbig
        have hblk : scan df td (l ++ cs.flatten) = ([], l ++ cs.flatten, ScanStatus.eofBlocked) := by
          have := scan_append_master df td l.length l cs.flatten le_rfl [] l
            ScanStatus.eofBlocked hleft
          rw [if_neg (by intro hcn; cases hcn)] at this
          exact this
        rw [run_cons_go df td buf c cs e l ScanStatus.eofBlocked hr
          (by intro hcn; cases hcn)]
        rw [ih l ScanStatus.eofBlocked hleft (by intro hcn; cases hcn)]
        rw [run_cons_go df td l (cs.flatten) [] [] (l ++ cs.flatten) ScanStatus.eofBlocked
          hblk (by intro hcn; cases hcn)]
        rw [run_cons_go df td buf (c ++ cs.flatten) [] e (l ++ cs.flatten) ScanStatus.eofBlocked
          (by rw [hassoc]; exact hbig) (by intro hcn; cases hcn)]
        simp
      | cont =>
        rw [if_pos rfl] at hbig
        match hr2 : scan df td (l ++ cs.flatten) with
        | (e2, l2, s2) =>
          rw [hr2] at hbig
          rw [run_cons_go df td buf c cs e l ScanStatus.cont hr
            (by intro hcn; cases hcn)]
          rw [ih l ScanStatus.cont hleft (by intro hcn; cases hcn)]
          cases hs2 : s2 with
          | fatal =>
            subst hs2
            rw [run_cons_fatal df td l (cs.flatten) [] e2 l2 hr2]
            rw [run_cons_fatal df td buf (c ++ cs.flatten) [] (e ++ e2) l2 (by
              rw [hassoc]; exact hbig)]
          | cont =>
            subst hs2
            rw [run_cons_go df td l (cs.flatten) [] e2 l2 ScanStatus.cont
              hr2 (by intro hcn; cases hcn)]
            rw [run_cons_go df td buf (c ++ cs.flatten) [] (e ++ e2) l2 ScanStatus.cont
              (by rw [hassoc]; exact hbig) (by intro hcn; cases hcn)]
            simp
          | eofBlocked =>
            subst hs2
            rw [run_cons_go df td l (cs.flatten) [] e2 l2 ScanStatus.eofBlocked
              hr2 (by intro hcn; cases hcn)]
            rw [run_cons_go df td buf (c ++ cs.flatten) [] (e ++ e2) l2 ScanStatus.eofBlocked
              (by rw [hassoc]; exact hbig) (by intro hcn; cases hcn)]
            simp


/-- `table.indices().all(|idx| locs.contains_key(&(idx as u64)))` wrapped
in `main`'s startup precheck: keep the map when every table index has a
location, otherwise drop location info for the whole session (the source
also logs one warning). -/
def precheck (indices : List Nat) (locs : List (Nat × Elf2Table.Location)) :
    Option (List (Nat × Elf2Table.Location)) :=
  if indices.all (fun idx => (Elf2Table.lookupKey locs idx).isSome) then some locs
  else none

/-- `loc.file.strip_prefix(&current_dir)` with fallback to the full path
when the file is not under the current directory. -/
def stripDir (currentDir file : List String) : List String :=
  if currentDir.isPrefixOf file then file.drop currentDir.length else file

/-- `relpath.display().to_string()` over pushed path components. -/
def displayPath (p : List String) : String := String.intercalate "/" p

/-- The location attachment performed for each decoded frame before
`log_defmt`: with `locs = None` every event carries no file, line or
module; otherwise the frame's index is looked up (present for every table
index by the precheck — the source's `locs[&frame.index()]` indexing
relies on that). -/
def emitMeta (currentDir : List String)
    (locsOpt : Option (List (Nat × Elf2Table.Location))) (idx : Nat) :
    Option String × Option Nat × Option String :=
  match locsOpt with
  | none => (none, none, none)
  | some locs =>
    match Elf2Table.lookupKey locs idx with
    | none => (none, none, none)
    | some loc =>
      (some (displayPath (stripDir currentDir loc.file)), some loc.line,
        some loc.module)

end DefmtPrint

/-- C1: delivering a byte stream split across reads of arbitrary sizes —
including boundaries exactly on a zero byte, one byte before it, or
mid-payload — produces exactly the event sequence, final reassembly
buffer, and fatal flag of delivering the entire stream in one read,
whatever the opaque frame decoder and table decoder answer: across read
iterations the retained buffer drops no byte and duplicates none. -/
theorem c1_chunking_invariance {F : Type} (df : List Nat → Option (List Nat))
    (td : List Nat → DefmtPrint.TDResult F) (chunks : List (List Nat)) :
    DefmtPrint.run df td [] chunks = DefmtPrint.run df td [] [chunks.flatten] :=
  DefmtPrint.run_join df td chunks [] .cont (DefmtPrint.scan_none df td [] rfl)
    (by intro h; cases h)

/-- Witness exercising C1 on a concrete split of one frame across two
reads. -/
theorem c1_chunking_invariance_witness :
    DefmtPrint.run (fun l => if l = [1] then some [2] else none)
      (fun m => if m = [2] then DefmtPrint.TDResult.ok 7 1
        else (DefmtPrint.TDResult.malformed : DefmtPrint.TDResult Nat))
      [] [[1], [0]] =
    DefmtPrint.run (fun l => if l = [1] then some [2] else none)
      (fun m => if m = [2] then DefmtPrint.TDResult.ok 7 1
        else (DefmtPrint.TDResult.malformed : DefmtPrint.TDResult Nat))
      [] [[[1], [0]].flatten] :=
  c1_chunking_invariance _ _ [[1], [0]]

/-- C6: when the buffer holds `[0x05, 0x00]` and the frame-decoded payload
of `[0x05]` is reported by the table decoder as `UnexpectedEof`, the scan
emits no event, stops the read cycle with the eof-blocked status, and the
read loop retains the full remainder `[0x05, 0x00]` — partial frame plus
terminator — for the next read. -/
theorem c6_eof_retains_partial_frame {F : Type}
    (df : List Nat → Option (List Nat)) (td : List Nat → DefmtPrint.TDResult F)
    (p : List Nat) (h1 : df [5] = some p) (h2 : td p = .unexpectedEof) :
    DefmtPrint.scan df td [5, 0] = ([], [5, 0], .eofBlocked) ∧
    DefmtPrint.run df td [] [[5, 0]] = ([], [5, 0], false) := by
  have hsplit : DefmtPrint.splitAtZero [5, 0] = some ([5], []) := rfl
  have hscan := DefmtPrint.scan_eof df td [5, 0] [5] [] p hsplit
    (by intro hc; cases hc) h1 h2
  refine ⟨hscan, ?_⟩
  rw [DefmtPrint.run_cons_go df td [] [5, 0] [] [] [5, 0] .eofBlocked
    (by rw [List.nil_append]; exact hscan) (by intro hc; cases hc)]
  rfl

/-- Witness for C6 with concrete decoders. -/
theorem c6_eof_retains_partial_frame_witness :
    DefmtPrint.scan (fun l => if l = [5] then some [9] else none)
      (fun _ => (DefmtPrint.TDResult.unexpectedEof : DefmtPrint.TDResult Nat))
      [5, 0] = ([], [5, 0], .eofBlocked) ∧
    DefmtPrint.run (fun l => if l = [5] then some [9] else none)
      (fun _ => (DefmtPrint.TDResult.unexpectedEof : DefmtPrint.TDResult Nat))
      [] [[5, 0]] = ([], [5, 0], false) :=
  c6_eof_retains_partial_frame _ _ [9] rfl rfl

/-- C8: if some table index has no Locations entry, the startup precheck
does not fail but drops the map (the source logs a single warning), and
every subsequently emitted event carries no file, no line and no module. -/
theorem c8_incomplete_locations_disable_attachment
    (indices : List Nat) (locs : List (Nat × Elf2Table.Location)) (i : Nat)
    (hi : i ∈ indices) (hmiss : Elf2Table.lookupKey locs i = none) :
    DefmtPrint.precheck indices locs = none ∧
    ∀ (cd : List String) (idx : Nat),
      DefmtPrint.emitMeta cd (DefmtPrint.precheck indices locs) idx =
        (none, none, none) := by
  have hall : indices.all (fun idx => (Elf2Table.lookupKey locs idx).isSome)
      = false := by
    rw [List.all_eq_false]
    exact ⟨i, hi, by rw [hmiss]; decide⟩
  have hpre : DefmtPrint.precheck indices locs = none := by
    unfold DefmtPrint.precheck
    rw [hall]
    rfl
  exact ⟨hpre, fun cd idx => by rw [hpre]; rfl⟩

/-- Witness for C8 at a concrete missing index. -/
theorem c8_incomplete_locations_disable_attachment_witness :
    DefmtPrint.precheck [3] [] = none ∧
    DefmtPrint.emitMeta [] (DefmtPrint.precheck [3] []) 3 = (none, none, none) :=
  ⟨(c8_incomplete_locations_disable_attachment [3] [] 3 (by decide) rfl).1,
   (c8_incomplete_locations_disable_attachment [3] [] 3 (by decide) rfl).2 [] 3⟩
